import Mathlib

/-!
Verification of the run-ledger (simulated environment) and the two selection
algorithms (LeapsAndBounds and Structured Procrastination) of the
`leaps-and-bounds` repository, as a shallow embedding in Lean 4.

Times are modelled as rationals.  The transcendental floating-point helpers
(`np.log`, `np.log2`, `np.sqrt`, non-integer `**`) are passed as abstract
function parameters; everything else follows the Python source line by line.
-/

namespace LB

/-- The static data of `simulated_environment.Environment`: the ground-truth
measurement table `_results` (one list of per-instance completion times per
configuration) and the measurement ceiling `_timeout`. -/
structure Env where
  results : List (List ℚ)
  timeout : ℚ
deriving Repr

/-- `self._instance_count = len(self._results[0])`. -/
def Env.instance_count (env : Env) : ℕ := (env.results.headD []).length

/-- `self._results[config_id][instance_id % self._instance_count]`, with
out-of-range lookups defaulting to `0` (the Python code would raise there;
theorems that need in-range indices take that as a hypothesis). -/
def Env.groundTruth (env : Env) (config_id instance_id : ℕ) : ℚ :=
  (env.results.getD config_id []).getD (instance_id % env.instance_count) 0

/-- The mutable accounting state set up by `Environment.reset`:
`_total_runtime`, `_total_resumed_runtime`, `_runtime_per_config` (a
defaultdict, modelled as a total function defaulting to `0`) and
`_ran_so_far` (a defaultdict of defaultdicts). -/
structure EnvState where
  total_runtime : ℚ
  total_resumed_runtime : ℚ
  runtime_per_config : ℕ → ℚ
  ran_so_far : ℕ → ℕ → ℚ

/-- The state right after `Environment.reset()`. -/
def resetState : EnvState :=
  { total_runtime := 0
    total_resumed_runtime := 0
    runtime_per_config := fun _ => 0
    ran_so_far := fun _ _ => 0 }

/-- The state updates of `Environment.run`'s body:
`runtime = min(timeout, results[config_id][instance_id % instance_count])`,
`total_runtime += runtime`,
`resumed_runtime = runtime - ran_so_far[config_id][instance_id]`,
`runtime_per_config[config_id] += resumed_runtime`,
`ran_so_far[config_id][instance_id] = runtime`,
`total_resumed_runtime += resumed_runtime`. -/
def Env.runState (env : Env) (s : EnvState) (config_id : ℕ) (timeout : ℚ)
    (instance_id : ℕ) : EnvState :=
  let runtime := min timeout (env.groundTruth config_id instance_id)
  let resumed_runtime := runtime - s.ran_so_far config_id instance_id
  { total_runtime := s.total_runtime + runtime
    total_resumed_runtime := s.total_resumed_runtime + resumed_runtime
    runtime_per_config := fun c =>
      if c = config_id then s.runtime_per_config c + resumed_runtime
      else s.runtime_per_config c
    ran_so_far := fun c i =>
      if c = config_id ∧ i = instance_id then runtime
      else s.ran_so_far c i }

/-- `Environment.run` with an explicit `instance_id` (the only way the two
algorithms call it).  Raising `ValueError` on a too-high timeout is modelled
by `Except.error`; on success the call returns the
`(timeout <= results[config_id][instance_id % instance_count], runtime)`
pair together with the updated accounting state. -/
def Env.run (env : Env) (s : EnvState) (config_id : ℕ) (timeout : ℚ)
    (instance_id : ℕ) : Except Unit ((Bool × ℚ) × EnvState) :=
  if env.timeout < timeout then Except.error () else
    Except.ok ((decide (timeout ≤ env.groundTruth config_id instance_id),
        min timeout (env.groundTruth config_id instance_id)),
      env.runState s config_id timeout instance_id)

/-- A `run()` request: `(config_id, timeout, instance_id)`. -/
abbrev Call := ℕ × ℚ × ℕ

/-- Runs a sequence of `run()` calls, threading the accounting state.  A call
that raises (timeout above the ceiling) leaves the state unchanged, exactly
as the exception does in the source. -/
def runCalls (env : Env) : EnvState → List Call → EnvState
  | s, [] => s
  | s, (c, t, i) :: rest =>
    match env.run s c t i with
    | Except.error _ => runCalls env s rest
    | Except.ok (_, s') => runCalls env s' rest

/-- Whether some `(configuration, instance)` pair occurs twice in the call
sequence with the later occurrence using a strictly larger timeout: the
equality condition named by the spec's accounting invariant. -/
def retriedLarger : List Call → Bool
  | [] => false
  | (c, t, i) :: rest =>
    rest.any (fun p => c == p.1 && i == p.2.2 && decide (t < p.2.1)) || retriedLarger rest

/-- Whether every call of the sequence, executed in order from `s`, finds the
recorded `ran_so_far` of its pair equal to `0` (i.e. no pair that already ran
for a positive time is ever re-queried). -/
def freshCharges (env : Env) : EnvState → List Call → Bool
  | _, [] => true
  | s, (c, t, i) :: rest =>
    (s.ran_so_far c i == 0) && freshCharges env (runCalls env s [(c, t, i)]) rest

/-! ### The LeapsAndBounds selector (`leapsandbounds.py`) -/

/-- Models of the floating-point transcendental helpers used by the two
algorithms — `np.log` / `math.log` (`rlog`), `np.log2` (`rlog2`), `np.sqrt`
(`rsqrt`) and real exponentiation `x ** y` / `np.power` (`rpow`) — passed as
abstract function parameters; the remaining arithmetic is exact. -/
structure FloatOps where
  rlog : ℚ → ℚ
  rlog2 : ℚ → ℚ
  rsqrt : ℚ → ℚ
  rpow : ℚ → ℚ → ℚ

/-- `R = 44`, constant used for calculating `b`. -/
def R : ℚ := 44

/-- `R2 = 32`, constant used for the stopping condition. -/
def R2 : ℚ := 32

/-- One simulated run issued by `ebgstop_slave_alg`, as recorded by the
instrumented loop: the remaining time budget `t` when the run was issued, the
timeout passed to `env.run`, the elapsed time returned, and the remaining
budget after the deduction `t -= elapsed`. -/
structure RunEvent where
  t_before : ℚ
  issued : ℚ
  elapsed : ℚ
  t_after : ℚ

/-- The geometric-schedule update of `ebgstop_slave_alg`: when
`j + 1 > np.floor(np.power(beta, kk))` (with `beta = 1.10`), increment `kk`
and recompute `alpha`, `dk` and `x = alpha * np.log(3 * dk)` where
`dk = (2.1 * k ** 1.5 * 2.61238 * (kk ** 1.1) * 10.5844 * n) / zeta`;
otherwise keep `(kk, x)` unchanged. -/
def ebgstop_update_x (F : FloatOps) (k : ℕ) (zeta : ℚ) (n : ℕ) (j kk : ℕ)
    (x : ℚ) : ℕ × ℚ :=
  let beta : ℚ := 11 / 10
  if ((j : ℚ) + 1) > (⌊F.rpow beta (kk : ℚ)⌋ : ℚ) then
    let alpha := (⌊F.rpow beta ((kk : ℚ) + 1)⌋ : ℚ) / (⌊F.rpow beta (kk : ℚ)⌋ : ℚ)
    let dk := (21 / 10) * F.rpow (k : ℚ) (3 / 2) * (261238 / 100000)
      * F.rpow ((kk : ℚ) + 1) (11 / 10) * (105844 / 10000) * (n : ℚ) / zeta
    (kk + 1, alpha * F.rlog (3 * dk))
  else (kk, x)

/-- The `for j in xrange(b)` loop of `ebgstop_slave_alg`, recursing on the
number of remaining iterations.  State: loop index `j`, remaining time budget
`t`, observations `q`, running sums `sumq` and `sum_q_squared`, geometric
step index `kk` (`l` in the paper) and log-factor `x` (undefined in the
source until the first geometric-schedule update, which happens at `j = 1`
before any read; passed as `0` initially).  Besides the estimate and the
environment state, the result carries the (write-only) list of run events of
this and all remaining iterations.  When the iterations are exhausted the
source returns `np.mean(q)`. -/
def ebgstop_loop (F : FloatOps) (env : Env) (i : ℕ) (delta theta : ℚ) (k : ℕ)
    (epsilon zeta : ℚ) (n : ℕ) (tau : ℚ) :
    ℕ → ℕ → ℚ → List ℚ → ℚ → ℚ → ℕ → ℚ → EnvState →
    Except Unit (ℚ × EnvState × List RunEvent)
  | 0, _, _, q, _, _, _, _, s => Except.ok (q.sum / (q.length : ℚ), s, [])
  | rem + 1, j, t, q, sumq, sum_q_squared, kk, x, s =>
    let runStep : Except Unit (ℚ × EnvState × List RunEvent) :=
      if 0 < t then
        match env.run s i (min t tau) j with
        | Except.error e => Except.error e
        | Except.ok (out, s') =>
          Except.ok (out.2, s', [RunEvent.mk t (min t tau) out.2 (t - out.2)])
      else Except.ok ((0 : ℚ), s, [])
    match runStep with
    | Except.error e => Except.error e
    | Except.ok (elapsed, s1, ev) =>
      let t1 := t - elapsed
      let q1 := q ++ [elapsed]
      let sumq1 := sumq + elapsed
      let sumsq1 := sum_q_squared + elapsed * elapsed
      if t1 = 0 then Except.ok (theta, s1, ev)
      else
        let q_mean := sumq1 / ((j : ℚ) + 1)
        let q_var := max ((sumsq1 - q_mean * sumq1) / ((j : ℚ) + 1)) 0
        let kx1 := ebgstop_update_x F k zeta n j kk x
        let next : Except Unit (ℚ × EnvState × List RunEvent) :=
          match ebgstop_loop F env i delta theta k epsilon zeta n tau
            rem (j + 1) t1 q1 sumq1 sumsq1 kx1.1 kx1.2 s1 with
          | Except.error e => Except.error e
          | Except.ok (v, s2, tr2) => Except.ok (v, s2, ev ++ tr2)
        if 0 < j then
          let confidence := F.rsqrt (q_var * 2 * kx1.2 / ((j : ℚ) + 1))
            + 3 * tau * kx1.2 / ((j : ℚ) + 1)
          let lower_bound := q_mean - confidence
          if (1 + 3 * epsilon / 7) * lower_bound > theta ∧ q_mean > theta then
            Except.ok (theta, s1, ev)
          else
            let d_prime := zeta / (40 * 3 * (n : ℚ) * (k : ℚ) * ((k : ℚ) + 1)
              * (j : ℚ) * ((j : ℚ) + 1))
            let r2 := ⌈-R2 * F.rlog d_prime / delta⌉
            if ((j : ℚ) + 1) ≥ (r2 : ℚ) ∧ confidence ≤ epsilon / 3 * (q_mean + lower_bound)
            then Except.ok (q_mean, s1, ev)
            else next
        else next

/-- `ebgstop_slave_alg(env, i, b, delta, theta, k, epsilon, zeta, n)`:
`t = b * theta` (called `T` in the paper), `tau = 4 * theta / (3 * delta)`,
then the sampling loop. -/
def ebgstop_slave_alg (F : FloatOps) (env : Env) (s : EnvState) (i : ℕ) (b : ℤ)
    (delta theta : ℚ) (k : ℕ) (epsilon zeta : ℚ) (n : ℕ) :
    Except Unit (ℚ × EnvState × List RunEvent) :=
  ebgstop_loop F env i delta theta k epsilon zeta n (4 * theta / (3 * delta))
    b.toNat 0 ((b : ℚ) * theta) [] 0 0 0 0 s

/-- `np.min` of a nonempty list (`[]` defaults to `0`; the source raises
there, which the embedding of the round loop turns into an error). -/
def listMin : List ℚ → ℚ
  | [] => 0
  | x :: xs => xs.foldl min x

/-- `np.argmin`: the index of the first occurrence of the minimum. -/
def listArgmin (l : List ℚ) : ℕ := l.indexOf (listMin l)

/-- One round of `leaps_and_bounds` as observed by the instrumented loop:
the round's threshold `theta`, its sample-count bound `b` and the estimates
`q_hat` returned by the estimator for the `n` configurations. -/
structure RoundRec where
  theta : ℚ
  b : ℤ
  q_hat : List ℚ

/-- The `for i in xrange(n)` loop of `leaps_and_bounds`: runs
`ebgstop_slave_alg` once per configuration (configurations `i, i+1, ...`,
`cnt` of them), collecting the estimates `q_hat` and threading the
environment state. -/
def lnb_qhat (F : FloatOps) (env : Env) (b : ℤ) (delta theta : ℚ) (k : ℕ)
    (epsilon zeta : ℚ) (n : ℕ) :
    ℕ → ℕ → EnvState → Except Unit (List ℚ × EnvState)
  | 0, _, s => Except.ok ([], s)
  | cnt + 1, i, s =>
    match ebgstop_slave_alg F env s i b delta theta k epsilon zeta n with
    | Except.error e => Except.error e
    | Except.ok (v, s', _) =>
      match lnb_qhat F env b delta theta k epsilon zeta n cnt (i + 1) s' with
      | Except.error e => Except.error e
      | Except.ok (rest, s'') => Except.ok (v :: rest, s'')

/-- The `while True` round loop of `leaps_and_bounds`, with explicit fuel
standing in for the unbounded loop (`none` when the fuel runs out).  Per
round: `k += 1`, `b = int(ceil(R * log(40*3*n*k*(k+1)/zeta) /
(delta*epsilon*epsilon)))`, one estimator call per configuration; if
`np.min(q_hat) < theta` return `(np.argmin(q_hat), q_hat[argmin],
4*theta/(3*delta))`, else `theta *= theta_multiplier` and loop.  Besides the
result it returns the (write-only) record of the rounds it ran. -/
def lnb_rounds (F : FloatOps) (env : Env) (n : ℕ)
    (epsilon delta zeta theta_multiplier : ℚ) :
    ℕ → ℕ → ℚ → EnvState →
    Except Unit (Option (ℕ × ℚ × ℚ) × EnvState × List RoundRec)
  | 0, _, _, s => Except.ok (none, s, [])
  | fuel + 1, k, theta, s =>
    let k1 := k + 1
    let b : ℤ := ⌈R * F.rlog (40 * 3 * (n : ℚ) * (k1 : ℚ) * ((k1 : ℚ) + 1) / zeta)
      / (delta * epsilon * epsilon)⌉
    match lnb_qhat F env b delta theta k1 epsilon zeta n n 0 s with
    | Except.error e => Except.error e
    | Except.ok (q_hat, s1) =>
      if q_hat = [] then Except.error ()
      else if listMin q_hat < theta then
        Except.ok (some (listArgmin q_hat, q_hat.getD (listArgmin q_hat) 0,
          4 * theta / (3 * delta)), s1, [RoundRec.mk theta b q_hat])
      else
        match lnb_rounds F env n epsilon delta zeta theta_multiplier fuel k1
          (theta * theta_multiplier) s1 with
        | Except.error e => Except.error e
        | Except.ok (res, s2, recs) =>
          Except.ok (res, s2, RoundRec.mk theta b q_hat :: recs)

/-- `leaps_and_bounds(env, n, epsilon, delta, zeta, k0, theta_multiplier)`:
`theta = k0 * 16. / 7`, `k = 0`, then the round loop. -/
def leaps_and_bounds (F : FloatOps) (env : Env) (s : EnvState) (n : ℕ)
    (epsilon delta zeta k0 theta_multiplier : ℚ) (fuel : ℕ) :
    Except Unit (Option (ℕ × ℚ × ℚ) × EnvState × List RoundRec) :=
  lnb_rounds F env n epsilon delta zeta theta_multiplier fuel 0 (k0 * 16 / 7) s

/-! ### The Structured Procrastination selector (`structured_procrastination.py`) -/

/-- `C = 12.`, the constant for `l_i`. -/
def C : ℚ := 12

/-- `np.max` of a nonempty list (`[]` defaults to `0`). -/
def listMax : List ℚ → ℚ
  | [] => 0
  | x :: xs => xs.foldl max x

/-- `np.argmax`: the index of the first occurrence of the maximum. -/
def listArgmax (l : List ℚ) : ℕ := l.indexOf (listMax l)

/-- Lexicographic comparison of heap entries `(key, config_id)`, as Python
compares the tuples pushed by `heapq`. -/
def pairLt (a b : ℚ × ℕ) : Bool :=
  decide (a.1 < b.1) || (a.1 == b.1 && decide (a.2 < b.2))

/-- The lexicographically smallest entry among `m` and `xs` (ties keep the
earlier element; full ties cannot occur since each configuration is in the
heap at most once). -/
def heapMin : List (ℚ × ℕ) → (ℚ × ℕ) → ℚ × ℕ
  | [], m => m
  | x :: xs, m => heapMin xs (if pairLt x m then x else m)

/-- Removes the first occurrence of an entry from the heap list. -/
def removeFirst : List (ℚ × ℕ) → (ℚ × ℕ) → List (ℚ × ℕ)
  | [], _ => []
  | x :: xs, y => if x = y then xs else x :: removeFirst xs y

/-- The per-configuration state of `structured_procrastination`: `k` (the
generation counters), `l` (run-list lengths), `q` (pending `(slot, timeout)`
queues), `qq` (target queue lengths), `r` (charged runtime per slot),
`r_sum` (their sums) and the `heapq` heap, modelled as the multiset of its
entries (`heappop` removes the lexicographically smallest entry, which is
exactly what `heapq` pops). -/
structure SPState where
  k : List ℕ
  l : List ℤ
  q : List (List (ℕ × ℚ))
  qq : List ℤ
  r : List (List ℚ)
  r_sum : List ℚ
  heap : List (ℚ × ℕ)

/-- Lines 2–8 of `structured_procrastination`: per configuration, `k = 0`,
`l = int(ceil(C/eps^2 * log(3*beta*n/zeta)))`, an empty-charge run list of
`l` slots with initial timeout `k0`, `qq = 0`, `r = 0` per slot, `r_sum = 0`,
and a heap entry `(0, i)`. -/
def sp_init (F : FloatOps) (n : ℕ) (epsilon zeta k0 beta : ℚ) : SPState :=
  let l0 : ℤ := ⌈C / (epsilon * epsilon) * F.rlog (3 * beta * (n : ℚ) / zeta)⌉
  { k := List.replicate n 0
    l := List.replicate n l0
    q := List.replicate n ((List.range l0.toNat).map fun ll => (ll, k0))
    qq := List.replicate n 0
    r := List.replicate n (List.replicate l0.toNat 0)
    r_sum := List.replicate n 0
    heap := (List.range n).map fun i => ((0 : ℚ), i) }

/-- The `while len(q[i]) < qq[i]` growth loop (line 20): each pass does
`l[i] += 1`, appends a zero-charge slot to `r[i]` and inserts
`(l[i]-1, theta)` at the front of `q[i]`; since every pass grows the queue by
one, the number of passes is `qq[i] - len(q[i])` clamped at zero. -/
def sp_grow : ℕ → ℤ → List (ℕ × ℚ) → List ℚ → ℚ → ℤ × List (ℕ × ℚ) × List ℚ
  | 0, l_i, qi, ri, _ => (l_i, qi, ri)
  | cnt + 1, l_i, qi, ri, theta =>
    sp_grow cnt (l_i + 1) (((l_i + 1 - 1).toNat, theta) :: qi) (ri ++ [0]) theta

/-- One iteration of the main loop of `structured_procrastination` (lines
10–23): pop the heap's minimum, pop the front of that configuration's queue,
bump `k[i]` and recompute `qq[i]` if the slot was never charged, run the
configuration with the slot's timeout, charge the slot (re-enqueueing it with
an escalated timeout on a timeout), grow the run list to `qq[i]` entries, and
push the configuration back with key `r_sum[i] / k[i]`.  A pop from an empty
heap or queue (an `IndexError` in Python) and a too-high timeout propagate as
errors.  Returns the new selector state, environment state and the popped
configuration id. -/
def sp_iter (F : FloatOps) (env : Env) (n : ℕ)
    (epsilon zeta theta_multiplier beta : ℚ) (st : SPState) (es : EnvState) :
    Except Unit (SPState × EnvState × ℕ) :=
  match st.heap with
  | [] => Except.error ()
  | hh :: ht =>
    let m := heapMin ht hh
    let i := m.2
    let heap1 := removeFirst (hh :: ht) m
    match st.q.getD i [] with
    | [] => Except.error ()
    | (ll, theta) :: qrest =>
      let q1 := st.q.set i qrest
      let kqq :=
        if (st.r.getD i []).getD ll 0 = 0 then
          let knew := st.k.getD i 0 + 1
          (st.k.set i knew,
            st.qq.set i ⌈C / (epsilon * epsilon)
              * F.rlog (3 * beta * (n : ℚ) * (knew : ℚ) * (knew : ℚ) / zeta)⌉)
        else (st.k, st.qq)
      match env.run es i theta ll with
      | Except.error e => Except.error e
      | Except.ok (out, es1) =>
        let rrs :=
          if out.1 = false then
            (st.r_sum.set i (st.r_sum.getD i 0 + (out.2 - (st.r.getD i []).getD ll 0)),
              st.r.set i ((st.r.getD i []).set ll out.2), q1)
          else
            (st.r_sum.set i (st.r_sum.getD i 0 + (theta - (st.r.getD i []).getD ll 0)),
              st.r.set i ((st.r.getD i []).set ll theta),
              q1.set i (q1.getD i [] ++ [(ll, theta_multiplier * theta)]))
        let grown := sp_grow ((kqq.2.getD i 0) - ((rrs.2.2.getD i []).length : ℤ)).toNat
          (st.l.getD i 0) (rrs.2.2.getD i []) (rrs.2.1.getD i []) theta
        Except.ok (
          { k := kqq.1
            l := st.l.set i grown.1
            q := rrs.2.2.set i grown.2.1
            qq := kqq.2
            r := rrs.2.1.set i grown.2.2
            r_sum := rrs.1
            heap := (rrs.1.getD i 0 / ((kqq.1.getD i 0 : ℕ) : ℚ), i) :: heap1 },
          es1, i)

/-- The main loop of `structured_procrastination` (`while current_delta >
delta`), with explicit fuel standing in for the unbounded iteration count
(`none` when the fuel runs out).  Every 10000 iterations `i_star` and
`current_delta` are recomputed as `np.argmax(r_sum)` and
`sqrt(1+epsilon) * qq[i_star] / k[i_star]`; once the loop condition fails the
pair `(i_star, current_delta)` is returned. -/
def sp_loop (F : FloatOps) (env : Env) (n : ℕ)
    (epsilon delta zeta theta_multiplier beta : ℚ) :
    ℕ → SPState → EnvState → ℚ → ℕ → ℕ →
    Except Unit (Option (ℕ × ℚ) × EnvState)
  | 0, _, es, current_delta, i_star, _ =>
    if delta < current_delta then Except.ok (none, es)
    else Except.ok (some (i_star, current_delta), es)
  | fuel + 1, st, es, current_delta, i_star, iter_count =>
    if delta < current_delta then
      match sp_iter F env n epsilon zeta theta_multiplier beta st es with
      | Except.error e => Except.error e
      | Except.ok (st1, es1, _) =>
        if (iter_count + 1) % 10000 = 0 then
          sp_loop F env n epsilon delta zeta theta_multiplier beta fuel st1 es1
            (F.rsqrt (1 + epsilon)
              * ((st1.qq.getD (listArgmax st1.r_sum) 0 : ℤ) : ℚ)
              / ((st1.k.getD (listArgmax st1.r_sum) 0 : ℕ) : ℚ))
            (listArgmax st1.r_sum) (iter_count + 1)
        else
          sp_loop F env n epsilon delta zeta theta_multiplier beta fuel st1 es1
            current_delta i_star (iter_count + 1)
    else Except.ok (some (i_star, current_delta), es)

/-- `structured_procrastination(env, n, epsilon, delta, zeta, k0, k_bar,
theta_multiplier)`: `beta = np.log2(k_bar / k0)`, the initial state, then the
main loop with `current_delta = 1` (and `i_star` initialised to `0`; the
source leaves it unassigned until the first recomputation, which always
happens before the loop can exit when `delta < 1`). -/
def structured_procrastination (F : FloatOps) (env : Env) (s : EnvState)
    (n : ℕ) (epsilon delta zeta k0 k_bar theta_multiplier : ℚ) (fuel : ℕ) :
    Except Unit (Option (ℕ × ℚ) × EnvState) :=
  sp_loop F env n epsilon delta zeta theta_multiplier (F.rlog2 (k_bar / k0)) fuel
    (sp_init F n epsilon zeta k0 (F.rlog2 (k_bar / k0))) s 1 0 0

/-- The divide-by-zero safety invariant of C10: any configuration whose
generation counter `k[i]` is still zero has an all-zero charge list
`r[i]`. -/
def SPInv (st : SPState) : Prop :=
  ∀ i, st.k.getD i 0 = 0 → ∀ v ∈ st.r.getD i [], v = 0

/-! ### Basic lemmas about the run ledger -/

lemma run_ok_of_le (env : Env) (s : EnvState) (c : ℕ) (t : ℚ) (i : ℕ)
    (h : t ≤ env.timeout) :
    env.run s c t i = Except.ok ((decide (t ≤ env.groundTruth c i),
      min t (env.groundTruth c i)), env.runState s c t i) := by
  simp [Env.run, not_lt.2 h]

lemma run_error_of_gt (env : Env) (s : EnvState) (c : ℕ) (t : ℚ) (i : ℕ)
    (h : env.timeout < t) : env.run s c t i = Except.error () := by
  simp [Env.run, h]

lemma runCalls_cons_ok (env : Env) (s : EnvState) (c : ℕ) (t : ℚ) (i : ℕ)
    (rest : List Call) (h : t ≤ env.timeout) :
    runCalls env s ((c, t, i) :: rest) = runCalls env (env.runState s c t i) rest := by
  simp [runCalls, run_ok_of_le env s c t i h]

/-- C2: `run(config_id, timeout, instance_id)` raises the `InvalidTimeout`
condition (here: returns `Except.error`) iff the requested timeout exceeds the
configured measurement ceiling, and a raising call leaves the whole
accounting state — both totals, the per-configuration accumulator and the
`ran_so_far` map — unchanged. -/
theorem C2_invalid_timeout (env : Env) (s : EnvState) (c : ℕ) (t : ℚ) (i : ℕ) :
    ((∃ e, env.run s c t i = Except.error e) ↔ env.timeout < t) ∧
    (env.timeout < t → runCalls env s [(c, t, i)] = s) := by
  refine ⟨⟨fun ⟨e, he⟩ => ?_, fun h => ⟨(), run_error_of_gt env s c t i h⟩⟩, fun h => ?_⟩
  · by_contra hlt
    rw [run_ok_of_le env s c t i (not_lt.1 hlt)] at he
    exact Except.noConfusion he
  · simp [runCalls, run_error_of_gt env s c t i h]

/-- C3: for a call within the measurement ceiling, the returned pair has
`timed_out` true iff the ground truth for the pair is `≥ timeout`, and
`elapsed = min(timeout, ground_truth)`. -/
theorem C3_run_result (env : Env) (s : EnvState) (c : ℕ) (t : ℚ) (i : ℕ)
    (h : t ≤ env.timeout) :
    ∃ out s', env.run s c t i = Except.ok (out, s') ∧
      (out.1 = true ↔ env.groundTruth c i ≥ t) ∧
      out.2 = min t (env.groundTruth c i) := by
  refine ⟨_, _, run_ok_of_le env s c t i h, ?_, rfl⟩
  simp [ge_iff_le]

/-- Witness for C3 at `results = [[5]]`, ceiling `10`, `timeout = 3`. -/
theorem C3_run_result_witness :
    ∃ out s', (Env.run ⟨[[5]], 10⟩ resetState 0 3 0) = Except.ok (out, s') ∧
      (out.1 = true ↔ Env.groundTruth ⟨[[5]], 10⟩ 0 0 ≥ 3) ∧
      out.2 = min 3 (Env.groundTruth ⟨[[5]], 10⟩ 0 0) :=
  C3_run_result ⟨[[5]], 10⟩ resetState 0 3 0 (by norm_num)

lemma runCalls_append (env : Env) (l1 l2 : List Call) :
    ∀ s, runCalls env s (l1 ++ l2) = runCalls env (runCalls env s l1) l2 := by
  induction l1 with
  | nil => intro s; rfl
  | cons p rest ih =>
    intro s
    obtain ⟨pc, pt, pi⟩ := p
    rcases hr : env.run s pc pt pi with e | ⟨out, s'⟩
    · simp [runCalls, hr, ih]
    · simp [runCalls, hr, ih]

lemma runState_ran_so_far_self (env : Env) (s : EnvState) (c : ℕ) (t : ℚ) (i : ℕ) :
    (env.runState s c t i).ran_so_far c i = min t (env.groundTruth c i) := by
  simp [Env.runState]

lemma runState_ran_so_far_other (env : Env) (s : EnvState) (c : ℕ) (t : ℚ) (i : ℕ)
    (c' i' : ℕ) (h : ¬(c' = c ∧ i' = i)) :
    (env.runState s c t i).ran_so_far c' i' = s.ran_so_far c' i' := by
  simp only [Env.runState, if_neg h]

lemma runCalls_ran_so_far_avoid (env : Env) (mids : List Call) :
    ∀ (s : EnvState) (c i : ℕ), (∀ p ∈ mids, p.1 ≠ c ∨ p.2.2 ≠ i) →
    (runCalls env s mids).ran_so_far c i = s.ran_so_far c i := by
  induction mids with
  | nil => intro s c i _; rfl
  | cons p rest ih =>
    intro s c i h
    obtain ⟨pc, pt, pi⟩ := p
    have hne : ¬(c = pc ∧ i = pi) := by
      rintro ⟨rfl, rfl⟩
      rcases h (c, pt, i) (List.mem_cons_self _ _) with h' | h' <;> exact h' rfl
    by_cases hle : pt ≤ env.timeout
    · rw [runCalls_cons_ok env s pc pt pi rest hle,
        ih _ c i (fun q hq => h q (List.mem_cons_of_mem _ hq)),
        runState_ran_so_far_other env s pc pt pi c i hne]
    · simp only [runCalls, run_error_of_gt env s pc pt pi (not_le.1 hle)]
      exact ih _ c i (fun q hq => h q (List.mem_cons_of_mem _ hq))

/-- C4: after `run(c, t1, i)`, then any calls avoiding the pair `(c, i)`, a
second call `run(c, t2, i)` with `t1 < t2 ≤ ground truth` (both within the
ceiling) adds exactly `t2 - t1` to `total_resumed_runtime` and to the
per-configuration accumulator `runtime_per_config[c]`. -/
theorem C4_resumption_charge (env : Env) (s : EnvState) (c : ℕ) (t1 t2 : ℚ) (i : ℕ)
    (mids : List Call) (hmid : ∀ p ∈ mids, p.1 ≠ c ∨ p.2.2 ≠ i)
    (h1 : t1 ≤ env.timeout) (h2 : t2 ≤ env.timeout) (h12 : t1 < t2)
    (hgt : t2 ≤ env.groundTruth c i) :
    (runCalls env s ((c, t1, i) :: (mids ++ [(c, t2, i)]))).total_resumed_runtime
        - (runCalls env (env.runState s c t1 i) mids).total_resumed_runtime = t2 - t1 ∧
    (runCalls env s ((c, t1, i) :: (mids ++ [(c, t2, i)]))).runtime_per_config c
        - (runCalls env (env.runState s c t1 i) mids).runtime_per_config c = t2 - t1 := by
  have hmin1 : min t1 (env.groundTruth c i) = t1 := min_eq_left (by linarith)
  have hmin2 : min t2 (env.groundTruth c i) = t2 := min_eq_left hgt
  rw [runCalls_cons_ok env s c t1 i _ h1, runCalls_append,
    runCalls_cons_ok env _ c t2 i [] h2]
  set sB := runCalls env (env.runState s c t1 i) mids with hsB
  have hran : sB.ran_so_far c i = t1 := by
    rw [hsB, runCalls_ran_so_far_avoid env mids _ c i hmid,
      runState_ran_so_far_self, hmin1]
  constructor
  · show (env.runState sB c t2 i).total_resumed_runtime - sB.total_resumed_runtime = t2 - t1
    simp [Env.runState, hmin2, hran]
  · show (env.runState sB c t2 i).runtime_per_config c - sB.runtime_per_config c = t2 - t1
    simp [Env.runState, hmin2, hran]

/-- Witness for C4: ground truth `[[10]]`, ceiling `20`, `t1 = 3`, `t2 = 7`,
no intervening calls; the incremental charge is `7 - 3 = 4`. -/
theorem C4_resumption_charge_witness :
    (runCalls ⟨[[10]], 20⟩ resetState ((0, 3, 0) :: ([] ++ [(0, 7, 0)]))).total_resumed_runtime
        - (runCalls ⟨[[10]], 20⟩ (Env.runState ⟨[[10]], 20⟩ resetState 0 3 0) []).total_resumed_runtime
        = 7 - 3 ∧
    (runCalls ⟨[[10]], 20⟩ resetState ((0, 3, 0) :: ([] ++ [(0, 7, 0)]))).runtime_per_config 0
        - (runCalls ⟨[[10]], 20⟩ (Env.runState ⟨[[10]], 20⟩ resetState 0 3 0) []).runtime_per_config 0
        = 7 - 3 :=
  C4_resumption_charge ⟨[[10]], 20⟩ resetState 0 3 7 0 [] (by simp)
    (by norm_num) (by norm_num) (by norm_num)
    (by norm_num [Env.groundTruth, Env.instance_count])

/-- C9: the `(timed_out, elapsed)` pair returned by `run` depends on the
instance id only through its residue modulo the instance pool size and not at
all on the resumption state, while the side effects are keyed by the raw
instance id: only the entry `ran_so_far[c][i]` is written (to the capped
runtime), every other entry — in particular the one for slot `i + m` — is
untouched. -/
theorem C9_raw_instance_key (env : Env) (s1 s2 : EnvState) (c : ℕ) (t : ℚ) (i1 i2 : ℕ)
    (hmod : i1 % env.instance_count = i2 % env.instance_count)
    (h : t ≤ env.timeout) :
    (∃ out s1' s2', env.run s1 c t i1 = Except.ok (out, s1') ∧
        env.run s2 c t i2 = Except.ok (out, s2')) ∧
    (env.runState s1 c t i1).ran_so_far c i1 = min t (env.groundTruth c i1) ∧
    (∀ c' j, ¬(c' = c ∧ j = i1) →
      (env.runState s1 c t i1).ran_so_far c' j = s1.ran_so_far c' j) := by
  have hgt : env.groundTruth c i1 = env.groundTruth c i2 := by
    unfold Env.groundTruth
    rw [hmod]
  refine ⟨?_, runState_ran_so_far_self env s1 c t i1,
    fun c' j hj => runState_ran_so_far_other env s1 c t i1 c' j hj⟩
  refine ⟨(decide (t ≤ env.groundTruth c i1), min t (env.groundTruth c i1)),
    env.runState s1 c t i1, env.runState s2 c t i2,
    run_ok_of_le env s1 c t i1 h, ?_⟩
  rw [run_ok_of_le env s2 c t i2 h, hgt]

/-- Witness for C9: `results = [[3, 7]]` (pool size 2), slots `1` and `3`
agree modulo 2. -/
theorem C9_raw_instance_key_witness :
    (∃ out s1' s2', Env.run ⟨[[3, 7]], 10⟩ resetState 0 5 1 = Except.ok (out, s1') ∧
        Env.run ⟨[[3, 7]], 10⟩ resetState 0 5 3 = Except.ok (out, s2')) ∧
    (Env.runState ⟨[[3, 7]], 10⟩ resetState 0 5 1).ran_so_far 0 1
      = min 5 (Env.groundTruth ⟨[[3, 7]], 10⟩ 0 1) ∧
    (∀ c' j, ¬(c' = 0 ∧ j = 1) →
      (Env.runState ⟨[[3, 7]], 10⟩ resetState 0 5 1).ran_so_far c' j
        = resetState.ran_so_far c' j) :=
  C9_raw_instance_key ⟨[[3, 7]], 10⟩ resetState resetState 0 5 1 3 rfl (by norm_num)

/-- C5 fails as stated: retrying a pair with a *smaller* timeout makes the
incremental charge negative and `total_resumed_runtime` decreases.  Ground
truth `[[10]]`, ceiling `20`: after `run(0, 5, 0)` the counter is `5`; the
further call `run(0, 2, 0)` drops it to `2`. -/
theorem C5_counterexample :
    (runCalls ⟨[[10]], 20⟩ resetState [(0, 5, 0), (0, 2, 0)]).total_resumed_runtime <
    (runCalls ⟨[[10]], 20⟩ resetState [(0, 5, 0)]).total_resumed_runtime := by
  norm_num [runCalls, Env.run, Env.runState, Env.groundTruth, Env.instance_count, resetState]

/-- C5 (amended): a successful `run` call never decreases `total_runtime`
(given nonnegative timeout and ground truth), and it does not decrease
`total_resumed_runtime` provided its capped runtime `min(timeout, ground
truth)` is at least the pair's recorded `ran_so_far` — in particular whenever
the caller never retries a pair with a smaller timeout. -/
theorem C5_monotone_counters (env : Env) (s : EnvState) (c : ℕ) (t : ℚ) (i : ℕ) :
    (0 ≤ t → 0 ≤ env.groundTruth c i →
      s.total_runtime ≤ (env.runState s c t i).total_runtime) ∧
    (s.ran_so_far c i ≤ min t (env.groundTruth c i) →
      s.total_resumed_runtime ≤ (env.runState s c t i).total_resumed_runtime) := by
  constructor
  · intro ht hg
    have : (0 : ℚ) ≤ min t (env.groundTruth c i) := le_min ht hg
    simp only [Env.runState]
    linarith
  · intro hle
    simp only [Env.runState]
    linarith

lemma runState_diff (env : Env) (s : EnvState) (c : ℕ) (t : ℚ) (i : ℕ) :
    (env.runState s c t i).total_runtime - (env.runState s c t i).total_resumed_runtime
      = (s.total_runtime - s.total_resumed_runtime) + s.ran_so_far c i := by
  simp only [Env.runState]
  ring

lemma runState_ran_so_far_nonneg (env : Env) (s : EnvState) (c : ℕ) (t : ℚ) (i : ℕ)
    (hgt : 0 ≤ env.groundTruth c i) (ht : 0 ≤ t)
    (hs : ∀ c' i', 0 ≤ s.ran_so_far c' i') :
    ∀ c' i', 0 ≤ (env.runState s c t i).ran_so_far c' i' := by
  intro c' i'
  simp only [Env.runState]
  split
  · exact le_min ht hgt
  · exact hs c' i'

lemma runCalls_accounting (env : Env) (calls : List Call)
    (hgt : ∀ c i, 0 ≤ env.groundTruth c i) :
    ∀ s : EnvState, (∀ c i, 0 ≤ s.ran_so_far c i) →
      (∀ p ∈ calls, 0 ≤ p.2.1 ∧ p.2.1 ≤ env.timeout) →
      (∀ c i, 0 ≤ (runCalls env s calls).ran_so_far c i) ∧
      s.total_runtime - s.total_resumed_runtime ≤
        (runCalls env s calls).total_runtime - (runCalls env s calls).total_resumed_runtime ∧
      ((runCalls env s calls).total_runtime - (runCalls env s calls).total_resumed_runtime
          = s.total_runtime - s.total_resumed_runtime ↔ freshCharges env s calls = true) := by
  induction calls with
  | nil =>
    intro s hs _
    exact ⟨hs, le_refl _, by simp [runCalls, freshCharges]⟩
  | cons p rest ih =>
    intro s hs hc
    obtain ⟨c, t, i⟩ := p
    have hct := hc (c, t, i) (List.mem_cons_self _ _)
    have hrest := fun q hq => hc q (List.mem_cons_of_mem _ hq)
    rw [runCalls_cons_ok env s c t i rest hct.2]
    have hs' := runState_ran_so_far_nonneg env s c t i (hgt c i) hct.1 hs
    obtain ⟨ha, hb, hiff⟩ := ih (env.runState s c t i) hs' hrest
    have hstep := runState_diff env s c t i
    have hran := hs c i
    refine ⟨ha, by linarith, ?_⟩
    have hone : runCalls env s [(c, t, i)] = env.runState s c t i := by
      rw [runCalls_cons_ok env s c t i [] hct.2]
      rfl
    show _ ↔ freshCharges env s ((c, t, i) :: rest) = true
    rw [show freshCharges env s ((c, t, i) :: rest)
        = ((s.ran_so_far c i == 0) && freshCharges env (runCalls env s [(c, t, i)]) rest)
      from rfl, hone, Bool.and_eq_true, beq_iff_eq]
    constructor
    · intro heq
      have h0 : s.ran_so_far c i = 0 := by linarith
      exact ⟨h0, hiff.1 (by linarith)⟩
    · rintro ⟨h0, hfresh⟩
      have := hiff.2 hfresh
      linarith

/-- C1 fails as stated: re-querying a pair with an *equal* timeout already
breaks the equality.  Ground truth `[[1]]`, ceiling `2`, two calls
`run(0, 1, 0)`: no pair is queried twice with a larger timeout than before,
yet `total_resumed_runtime = 1 ≠ 2 = total_runtime`. -/
theorem C1_counterexample :
    retriedLarger [((0 : ℕ), (1 : ℚ), (0 : ℕ)), (0, 1, 0)] = false ∧
    (runCalls ⟨[[1]], 2⟩ resetState [(0, 1, 0), (0, 1, 0)]).total_resumed_runtime ≠
      (runCalls ⟨[[1]], 2⟩ resetState [(0, 1, 0), (0, 1, 0)]).total_runtime := by
  constructor
  · simp [retriedLarger]
  · norm_num [runCalls, Env.run, Env.runState, Env.groundTruth, Env.instance_count,
      resetState]

/-- C1 (amended): over any sequence of `run()` calls from a freshly reset
ledger, with nonnegative timeouts within the ceiling and nonnegative ground
truths, `total_resumed_runtime ≤ total_runtime` holds after every call; and
equality holds exactly when every call finds its pair's recorded `ran_so_far`
equal to zero — i.e. no pair that already ran for a positive time is ever
re-queried (with *any* timeout, larger or not). -/
theorem C1_accounting (env : Env) (calls : List Call)
    (hgt : ∀ c i, 0 ≤ env.groundTruth c i)
    (hc : ∀ p ∈ calls, 0 ≤ p.2.1 ∧ p.2.1 ≤ env.timeout) :
    (∀ pre post, calls = pre ++ post →
      (runCalls env resetState pre).total_resumed_runtime ≤
        (runCalls env resetState pre).total_runtime) ∧
    ((runCalls env resetState calls).total_resumed_runtime =
        (runCalls env resetState calls).total_runtime ↔
      freshCharges env resetState calls = true) := by
  have base : ∀ c i, 0 ≤ resetState.ran_so_far c i := fun _ _ => le_refl 0
  constructor
  · rintro pre post rfl
    have hpre : ∀ p ∈ pre, 0 ≤ p.2.1 ∧ p.2.1 ≤ env.timeout :=
      fun p hp => hc p (List.mem_append_left _ hp)
    obtain ⟨-, hle, -⟩ := runCalls_accounting env pre hgt resetState base hpre
    rw [show resetState.total_runtime - resetState.total_resumed_runtime = 0 from by
      norm_num [resetState]] at hle
    linarith
  · obtain ⟨-, -, hiff⟩ := runCalls_accounting env calls hgt resetState base hc
    rw [show resetState.total_runtime - resetState.total_resumed_runtime = 0 from by
      norm_num [resetState]] at hiff
    rw [eq_comm, ← sub_eq_zero]
    exact hiff

/-- Witness for C1 (amended) at ground truth `[[1]]`, ceiling `2`, a single
call `run(0, 1, 0)`. -/
theorem C1_accounting_witness :
    (∀ pre post, [((0 : ℕ), (1 : ℚ), (0 : ℕ))] = pre ++ post →
      (runCalls ⟨[[1]], 2⟩ resetState pre).total_resumed_runtime ≤
        (runCalls ⟨[[1]], 2⟩ resetState pre).total_runtime) ∧
    ((runCalls ⟨[[1]], 2⟩ resetState [(0, 1, 0)]).total_resumed_runtime =
        (runCalls ⟨[[1]], 2⟩ resetState [(0, 1, 0)]).total_runtime ↔
      freshCharges ⟨[[1]], 2⟩ resetState [(0, 1, 0)] = true) :=
  C1_accounting ⟨[[1]], 2⟩ [(0, 1, 0)]
    (by
      intro c i
      match c with
      | 0 => simp [Env.groundTruth, Env.instance_count, Nat.mod_one]
      | (c + 1) => simp [Env.groundTruth])
    (by norm_num)

/-! ### C6: budget accounting in the sequential estimator -/

lemma run_elapsed_le (env : Env) (s : EnvState) (c : ℕ) (t : ℚ) (i : ℕ)
    (out : Bool × ℚ) (s' : EnvState) (h : env.run s c t i = Except.ok (out, s')) :
    out.2 ≤ t := by
  unfold Env.run at h
  split at h
  · exact absurd h (by simp)
  · rw [Except.ok.injEq, Prod.mk.injEq] at h
    obtain ⟨h1, -⟩ := h
    rw [← h1]
    exact min_le_left _ _

lemma ebgstop_loop_budget (F : FloatOps) (env : Env) (i : ℕ) (delta theta : ℚ)
    (k : ℕ) (epsilon zeta : ℚ) (n : ℕ) (tau : ℚ) :
    ∀ (rem j : ℕ) (t : ℚ) (q : List ℚ) (sumq sumsq : ℚ) (kk : ℕ) (x : ℚ)
      (s : EnvState) (v : ℚ) (s' : EnvState) (tr : List RunEvent),
      ebgstop_loop F env i delta theta k epsilon zeta n tau rem j t q sumq sumsq kk x s
        = Except.ok (v, s', tr) →
      (∀ e ∈ tr, e.issued = min e.t_before tau ∧ 0 < e.t_before ∧
        e.t_after = e.t_before - e.elapsed ∧ 0 ≤ e.t_after) ∧
      (∀ e ∈ tr, e.t_after = 0 → v = theta) ∧
      (∀ e ∈ tr.dropLast, e.t_after ≠ 0) := by
  intro rem
  induction rem with
  | zero =>
    intro j t q sumq sumsq kk x s v s' tr h
    simp only [ebgstop_loop, Except.ok.injEq, Prod.mk.injEq] at h
    obtain ⟨-, -, htr⟩ := h
    subst htr
    simp
  | succ rem ih =>
    intro j t q sumq sumsq kk x s v s' tr h
    simp only [ebgstop_loop] at h
    by_cases ht : 0 < t
    · rw [if_pos ht] at h
      rcases hrun : env.run s i (min t tau) j with e | ⟨out, s1⟩ <;> rw [hrun] at h
      · exact absurd h (by simp)
      · have hel : out.2 ≤ min t tau := run_elapsed_le env s i (min t tau) j out s1 hrun
        have htafter : (0 : ℚ) ≤ t - out.2 := by
          have := min_le_left t tau
          linarith
        have hgood : ∀ e ∈ [RunEvent.mk t (min t tau) out.2 (t - out.2)],
            e.issued = min e.t_before tau ∧ 0 < e.t_before ∧
            e.t_after = e.t_before - e.elapsed ∧ 0 ≤ e.t_after := by
          intro e he
          rw [List.mem_singleton] at he
          subst he
          exact ⟨rfl, ht, rfl, htafter⟩
        dsimp only at h
        by_cases h0 : t - out.2 = 0
        · rw [if_pos h0] at h
          rw [Except.ok.injEq, Prod.mk.injEq, Prod.mk.injEq] at h
          obtain ⟨hv, -, htr⟩ := h
          subst hv
          refine ⟨htr ▸ hgood, fun e he _ => rfl, ?_⟩
          rw [← htr]
          simp
        · rw [if_neg h0] at h
          have hcons : ∀ tr2 v2,
              tr = RunEvent.mk t (min t tau) out.2 (t - out.2) :: tr2 → v = v2 →
              ((∀ e ∈ tr2, e.issued = min e.t_before tau ∧ 0 < e.t_before ∧
                  e.t_after = e.t_before - e.elapsed ∧ 0 ≤ e.t_after) ∧
                (∀ e ∈ tr2, e.t_after = 0 → v2 = theta) ∧
                (∀ e ∈ tr2.dropLast, e.t_after ≠ 0)) →
              (∀ e ∈ tr, e.issued = min e.t_before tau ∧ 0 < e.t_before ∧
                e.t_after = e.t_before - e.elapsed ∧ 0 ≤ e.t_after) ∧
              (∀ e ∈ tr, e.t_after = 0 → v = theta) ∧
              (∀ e ∈ tr.dropLast, e.t_after ≠ 0) := by
            rintro tr2 v2 rfl rfl ⟨g1, g2, g3⟩
            refine ⟨?_, ?_, ?_⟩
            · intro e he
              rcases List.mem_cons.1 he with rfl | he'
              · exact hgood _ (List.mem_singleton_self _)
              · exact g1 e he'
            · intro e he hz
              rcases List.mem_cons.1 he with rfl | he'
              · exact absurd hz h0
              · exact g2 e he' hz
            · rcases tr2 with _ | ⟨e2, tr2'⟩
              · simp
              · rw [List.dropLast_cons₂]
                intro e he
                rcases List.mem_cons.1 he with rfl | he'
                · exact h0
                · exact g3 e he'
          rcases hrec : ebgstop_loop F env i delta theta k epsilon zeta n tau rem (j + 1)
              (t - out.2) (q ++ [out.2]) (sumq + out.2) (sumsq + out.2 * out.2)
              (ebgstop_update_x F k zeta n j kk x).1 (ebgstop_update_x F k zeta n j kk x).2 s1
            with e' | ⟨v2, s2, tr2⟩ <;> rw [hrec] at h <;> dsimp only at h <;>
            repeat' split at h
          all_goals
            first
            | exact Except.noConfusion h
            | (rw [Except.ok.injEq, Prod.mk.injEq, Prod.mk.injEq] at h
               obtain ⟨hv, -, htr⟩ := h
               subst htr
               refine ⟨hgood, ?_, ?_⟩
               · intro e he hz
                 rw [List.mem_singleton] at he
                 subst he
                 exact absurd hz h0
               · simp)
            | (rw [Except.ok.injEq, Prod.mk.injEq, Prod.mk.injEq] at h
               obtain ⟨hv, -, htr⟩ := h
               subst htr
               refine hcons tr2 v2 ?_ hv.symm (ih _ _ _ _ _ _ _ _ _ _ _ hrec)
               simp)
    · rw [if_neg ht] at h
      dsimp only at h
      by_cases h0 : t - 0 = 0
      · rw [if_pos h0] at h
        rw [Except.ok.injEq, Prod.mk.injEq, Prod.mk.injEq] at h
        obtain ⟨hv, -, htr⟩ := h
        subst hv
        rw [← htr]
        exact ⟨by simp, by simp, by simp⟩
      · rw [if_neg h0] at h
        rcases hrec : ebgstop_loop F env i delta theta k epsilon zeta n tau rem (j + 1)
            (t - 0) (q ++ [0]) (sumq + 0) (sumsq + 0 * 0)
            (ebgstop_update_x F k zeta n j kk x).1 (ebgstop_update_x F k zeta n j kk x).2 s
          with e' | ⟨v2, s2, tr2⟩ <;> rw [hrec] at h <;> dsimp only at h <;>
          repeat' split at h
        all_goals
          first
          | exact Except.noConfusion h
          | (rw [Except.ok.injEq, Prod.mk.injEq, Prod.mk.injEq] at h
             obtain ⟨hv, -, htr⟩ := h
             subst htr
             refine ⟨?_, ?_, ?_⟩ <;> simp
             done)
          | (rw [Except.ok.injEq, Prod.mk.injEq, Prod.mk.injEq] at h
             obtain ⟨hv, -, htr⟩ := h
             subst htr
             obtain ⟨g1, g2, g3⟩ := ih _ _ _ _ _ _ _ _ _ _ _ hrec
             refine ⟨?_, ?_, ?_⟩
             · intro e he
               refine g1 e ?_
               simpa using he
             · intro e he hz
               rw [← hv]
               refine g2 e ?_ hz
               simpa using he
             · intro e he
               refine g3 e ?_
               simpa using he)

/-- C6: in `ebgstop_slave_alg`, every run is issued with
`timeout = min(remaining_time_budget, tau)` where `tau = 4*theta/(3*delta)`;
the elapsed time of each run is deducted from the remaining budget, which
never becomes negative; and whenever the remaining budget reaches exactly
zero after a deduction the estimator immediately returns `theta` (a
zero-budget event can only be the last one, and forces the return value
`theta`). -/
theorem C6_estimator_budget (F : FloatOps) (env : Env) (s : EnvState) (i : ℕ)
    (b : ℤ) (delta theta : ℚ) (k : ℕ) (epsilon zeta : ℚ) (n : ℕ)
    (v : ℚ) (s' : EnvState) (tr : List RunEvent)
    (h : ebgstop_slave_alg F env s i b delta theta k epsilon zeta n
      = Except.ok (v, s', tr)) :
    (∀ e ∈ tr, e.issued = min e.t_before (4 * theta / (3 * delta)) ∧ 0 < e.t_before ∧
      e.t_after = e.t_before - e.elapsed ∧ 0 ≤ e.t_after) ∧
    (∀ e ∈ tr, e.t_after = 0 → v = theta) ∧
    (∀ e ∈ tr.dropLast, e.t_after ≠ 0) :=
  ebgstop_loop_budget F env i delta theta k epsilon zeta n (4 * theta / (3 * delta))
    b.toNat 0 ((b : ℚ) * theta) [] 0 0 0 0 s v s' tr h

/-- Witness for C6: ground truth `[[5]]`, ceiling `10`, `b = 1`, `theta = 1`,
`delta = 3/4`; the single run is issued with `timeout = min(1, 16/9) = 1`,
exhausts the budget exactly, and the estimator returns `theta = 1`. -/
theorem C6_estimator_budget_witness :
    (∀ e ∈ [RunEvent.mk 1 1 1 0], e.issued = min e.t_before (4 * 1 / (3 * (3 / 4))) ∧
      0 < e.t_before ∧ e.t_after = e.t_before - e.elapsed ∧ 0 ≤ e.t_after) ∧
    (∀ e ∈ [RunEvent.mk 1 1 1 0], e.t_after = 0 → (1 : ℚ) = 1) ∧
    (∀ e ∈ [RunEvent.mk 1 1 1 0].dropLast, e.t_after ≠ 0) :=
  C6_estimator_budget ⟨fun _ => 0, fun _ => 0, fun _ => 0, fun _ _ => 0⟩
    ⟨[[5]], 10⟩ resetState 0 1 (3 / 4) 1 1 1 1 1 1
    (Env.runState ⟨[[5]], 10⟩ resetState 0 1 0) [RunEvent.mk 1 1 1 0]
    (by norm_num [ebgstop_slave_alg, ebgstop_loop, Env.run, Env.groundTruth,
      Env.instance_count])

/-! ### C7: the LeapsAndBounds round loop -/

lemma foldl_min_le_init (xs : List ℚ) : ∀ a : ℚ, xs.foldl min a ≤ a := by
  induction xs with
  | nil => intro a; exact le_refl a
  | cons x xs ih => intro a; exact le_trans (ih (min a x)) (min_le_left a x)

lemma foldl_min_le_mem (xs : List ℚ) : ∀ a : ℚ, ∀ v ∈ xs, xs.foldl min a ≤ v := by
  induction xs with
  | nil => intro a v hv; cases hv
  | cons x xs ih =>
    intro a v hv
    rcases List.mem_cons.1 hv with rfl | hv'
    · exact le_trans (foldl_min_le_init xs (min a v)) (min_le_right a v)
    · exact ih (min a x) v hv'

lemma foldl_min_mem (xs : List ℚ) : ∀ a : ℚ, xs.foldl min a = a ∨ xs.foldl min a ∈ xs := by
  induction xs with
  | nil => intro a; exact Or.inl rfl
  | cons x xs ih =>
    intro a
    rcases ih (min a x) with h | h
    · rcases min_cases a x with ⟨hmin, -⟩ | ⟨hmin, -⟩
      · exact Or.inl (by rw [List.foldl_cons, h, hmin])
      · refine Or.inr ?_
        rw [List.foldl_cons, h, hmin]
        exact List.mem_cons_self x xs
    · exact Or.inr (List.mem_cons_of_mem x h)

lemma listMin_mem (l : List ℚ) (h : l ≠ []) : listMin l ∈ l := by
  match l with
  | x :: xs =>
    rcases foldl_min_mem xs x with h' | h'
    · rw [listMin, h']
      exact List.mem_cons_self x xs
    · exact List.mem_cons_of_mem x h'

lemma listMin_le (l : List ℚ) (v : ℚ) (hv : v ∈ l) : listMin l ≤ v := by
  match l with
  | x :: xs =>
    rcases List.mem_cons.1 hv with rfl | hv'
    · exact foldl_min_le_init xs v
    · exact foldl_min_le_mem xs x v hv'

lemma listMin_lt_iff (l : List ℚ) (h : l ≠ []) (c : ℚ) :
    listMin l < c ↔ ∃ v ∈ l, v < c := by
  constructor
  · intro hlt
    exact ⟨listMin l, listMin_mem l h, hlt⟩
  · rintro ⟨v, hv, hlt⟩
    exact lt_of_le_of_lt (listMin_le l v hv) hlt

lemma listMin_getD_argmin (l : List ℚ) (h : l ≠ []) :
    l.getD (listArgmin l) 0 = listMin l := by
  have hm : listMin l ∈ l := listMin_mem l h
  have hlt : l.indexOf (listMin l) < l.length := List.indexOf_lt_length.2 hm
  rw [listArgmin, List.getD_eq_getElem?_getD, List.getElem?_eq_getElem hlt,
    List.getElem_indexOf hlt]
  rfl

lemma lnb_rounds_spec (F : FloatOps) (env : Env) (n : ℕ)
    (epsilon delta zeta mult : ℚ) (hmult : 1 ≤ mult) :
    ∀ (fuel k : ℕ) (theta : ℚ) (s : EnvState) (res : Option (ℕ × ℚ × ℚ))
      (s' : EnvState) (recs : List RoundRec), 0 ≤ theta →
      lnb_rounds F env n epsilon delta zeta mult fuel k theta s
        = Except.ok (res, s', recs) →
      (∀ i est tau', res = some (i, est, tau') →
        ∃ r, recs.getLast? = some r ∧ (∃ v ∈ r.q_hat, v < r.theta) ∧
          i = listArgmin r.q_hat ∧ est = listMin r.q_hat ∧
          est = r.q_hat.getD i 0 ∧ est < r.theta ∧
          tau' = 4 * r.theta / (3 * delta)) ∧
      (res = none → ∀ r ∈ recs, ¬∃ v ∈ r.q_hat, v < r.theta) ∧
      (∀ r ∈ recs.dropLast, ¬∃ v ∈ r.q_hat, v < r.theta) ∧
      List.Chain' (fun a b => a ≤ b) (recs.map RoundRec.theta) ∧
      (∀ r ∈ recs.head?, r.theta = theta) := by
  intro fuel
  induction fuel with
  | zero =>
    intro k theta s res s' recs _ h
    simp only [lnb_rounds, Except.ok.injEq, Prod.mk.injEq] at h
    obtain ⟨hres, -, htr⟩ := h
    subst htr
    subst hres
    refine ⟨fun i est tau' hres' => absurd hres' (by simp), fun _ r hr => absurd hr (by simp),
      by simp, by simp, by simp⟩
  | succ fuel ih =>
    intro k theta s res s' recs htheta h
    simp only [lnb_rounds] at h
    rcases hq : lnb_qhat F env
        ⌈R * F.rlog (40 * 3 * (n : ℚ) * ((k + 1 : ℕ) : ℚ) * (((k + 1 : ℕ) : ℚ) + 1) / zeta)
          / (delta * epsilon * epsilon)⌉ delta theta (k + 1) epsilon zeta n n 0 s
      with e | ⟨q_hat, s1⟩ <;> rw [hq] at h
    · exact Except.noConfusion h
    dsimp only at h
    by_cases hnil : q_hat = []
    · rw [if_pos hnil] at h
      exact Except.noConfusion h
    rw [if_neg hnil] at h
    by_cases hlt : listMin q_hat < theta
    · rw [if_pos hlt] at h
      rw [Except.ok.injEq, Prod.mk.injEq, Prod.mk.injEq] at h
      obtain ⟨hres, -, htr⟩ := h
      subst htr
      refine ⟨?_, ?_, by simp, by simp, ?_⟩
      · intro i est tau' hres'
        rw [← hres] at hres'
        rw [Option.some.injEq, Prod.mk.injEq, Prod.mk.injEq] at hres'
        obtain ⟨hi, hest, htau⟩ := hres'
        refine ⟨_, List.getLast?_singleton _,
          (listMin_lt_iff q_hat hnil theta).1 hlt, hi.symm, ?_, ?_, ?_, htau.symm⟩
        · rw [← hest, listMin_getD_argmin q_hat hnil]
        · rw [← hest, ← hi]
        · rw [← hest, listMin_getD_argmin q_hat hnil]
          exact hlt
      · intro hnone
        rw [← hres] at hnone
        exact absurd hnone (by simp)
      · intro r hr
        rw [List.head?_cons, Option.mem_def, Option.some.injEq] at hr
        rw [← hr]
    · rw [if_neg hlt] at h
      rcases hrec : lnb_rounds F env n epsilon delta zeta mult fuel (k + 1)
          (theta * mult) s1 with e | ⟨res2, s2, recs2⟩ <;> rw [hrec] at h
      · exact Except.noConfusion h
      rw [Except.ok.injEq, Prod.mk.injEq, Prod.mk.injEq] at h
      obtain ⟨hres, -, htr⟩ := h
      subst htr
      subst hres
      have hth2 : (0 : ℚ) ≤ theta * mult :=
        mul_nonneg htheta (le_trans zero_le_one hmult)
      obtain ⟨A, B, C, D, E⟩ := ih (k + 1) (theta * mult) s1 res2 s2 recs2 hth2 hrec
      have hnotex : ¬∃ v ∈ q_hat, v < theta := by
        rw [← listMin_lt_iff q_hat hnil theta]
        exact hlt
      refine ⟨?_, ?_, ?_, ?_, ?_⟩
      · intro i est tau' hres'
        obtain ⟨r, hlast, hrest⟩ := A i est tau' hres'
        refine ⟨r, ?_, hrest⟩
        rcases recs2 with _ | ⟨r2, recs2'⟩
        · exact absurd hlast (by simp)
        · rw [List.getLast?_cons_cons]
          exact hlast
      · intro hnone r hr
        rcases List.mem_cons.1 hr with rfl | hr'
        · exact hnotex
        · exact B hnone r hr'
      · intro r hr
        rcases recs2 with _ | ⟨r2, recs2'⟩
        · exact absurd hr (by simp)
        · rw [List.dropLast_cons₂] at hr
          rcases List.mem_cons.1 hr with rfl | hr'
          · exact hnotex
          · exact C r hr'
      · rw [List.map_cons, List.chain'_cons']
        refine ⟨?_, D⟩
        intro y hy
        rcases recs2 with _ | ⟨r2, recs2'⟩
        · exact absurd hy (by simp)
        · rw [List.map_cons, List.head?_cons, Option.mem_def, Option.some.injEq] at hy
          rw [← hy, E r2 (by simp)]
          exact le_mul_of_one_le_right htheta hmult
      · intro r hr
        rw [List.head?_cons, Option.mem_def, Option.some.injEq] at hr
        rw [← hr]

/-- C7: when the LeapsAndBounds round loop returns, the returning round is
exactly the first whose estimate list contains a value strictly below that
round's `theta` (every earlier round, and every round when the fuel runs out
without returning, has no estimate below its `theta`); the returned triple is
`(np.argmin(q_hat), min(q_hat), 4*theta/(3*delta))` for the returning
round's `theta`; and for `theta_multiplier ≥ 1` (and `k0 ≥ 0`) the rounds'
`theta` values are non-decreasing, starting at `k0 * 16 / 7`. -/
theorem C7_round_loop (F : FloatOps) (env : Env) (s : EnvState) (n : ℕ)
    (epsilon delta zeta k0 mult : ℚ) (fuel : ℕ)
    (hmult : 1 ≤ mult) (hk0 : 0 ≤ k0)
    (res : Option (ℕ × ℚ × ℚ)) (s' : EnvState) (recs : List RoundRec)
    (h : leaps_and_bounds F env s n epsilon delta zeta k0 mult fuel
      = Except.ok (res, s', recs)) :
    (∀ i est tau', res = some (i, est, tau') →
      ∃ r, recs.getLast? = some r ∧ (∃ v ∈ r.q_hat, v < r.theta) ∧
        i = listArgmin r.q_hat ∧ est = listMin r.q_hat ∧
        est = r.q_hat.getD i 0 ∧ est < r.theta ∧
        tau' = 4 * r.theta / (3 * delta)) ∧
    (res = none → ∀ r ∈ recs, ¬∃ v ∈ r.q_hat, v < r.theta) ∧
    (∀ r ∈ recs.dropLast, ¬∃ v ∈ r.q_hat, v < r.theta) ∧
    List.Chain' (fun a b => a ≤ b) (recs.map RoundRec.theta) ∧
    (∀ r ∈ recs.head?, r.theta = k0 * 16 / 7) :=
  lnb_rounds_spec F env n epsilon delta zeta mult hmult fuel 0 (k0 * 16 / 7) s
    res s' recs (by positivity) h

/-- Witness for C7: `n = 1`, ground truth `[[5]]`, ceiling `10`,
`epsilon = zeta = 1`, `delta = 1/2`, `k0 = 7/16` (so `theta = 1`),
`theta_multiplier = 2`, one round of fuel; with the zero transcendental
model, `b = 0`, the estimator returns `0 < 1` and the loop returns
`(0, 0, 8/3)` in the first round. -/
theorem C7_round_loop_witness :
    (∀ i est tau', (some (0, 0, 8 / 3) : Option (ℕ × ℚ × ℚ)) = some (i, est, tau') →
      ∃ r, ([RoundRec.mk 1 0 [0]] : List RoundRec).getLast? = some r ∧
        (∃ v ∈ r.q_hat, v < r.theta) ∧
        i = listArgmin r.q_hat ∧ est = listMin r.q_hat ∧
        est = r.q_hat.getD i 0 ∧ est < r.theta ∧
        tau' = 4 * r.theta / (3 * (1 / 2))) ∧
    ((some (0, 0, 8 / 3) : Option (ℕ × ℚ × ℚ)) = none →
      ∀ r ∈ ([RoundRec.mk 1 0 [0]] : List RoundRec), ¬∃ v ∈ r.q_hat, v < r.theta) ∧
    (∀ r ∈ ([RoundRec.mk 1 0 [0]] : List RoundRec).dropLast,
      ¬∃ v ∈ r.q_hat, v < r.theta) ∧
    List.Chain' (fun a b => a ≤ b)
      (([RoundRec.mk 1 0 [0]] : List RoundRec).map RoundRec.theta) ∧
    (∀ r ∈ ([RoundRec.mk 1 0 [0]] : List RoundRec).head?,
      r.theta = (7 / 16) * 16 / 7) :=
  C7_round_loop ⟨fun _ => 0, fun _ => 0, fun _ => 0, fun _ _ => 0⟩ ⟨[[5]], 10⟩
    resetState 1 1 (1 / 2) 1 (7 / 16) 2 1 (by norm_num) (by norm_num)
    (some (0, 0, 8 / 3)) resetState [RoundRec.mk 1 0 [0]]
    (by norm_num [leaps_and_bounds, lnb_rounds, lnb_qhat, ebgstop_slave_alg,
      ebgstop_loop, listMin, listArgmin, R])

/-! ### C8 and C10: the Structured Procrastination loop -/

lemma sp_loop_le (F : FloatOps) (env : Env) (n : ℕ)
    (epsilon delta zeta mult beta : ℚ) :
    ∀ (fuel : ℕ) (st : SPState) (es : EnvState) (cd : ℚ) (i_star iter ist : ℕ)
      (cd' : ℚ) (es' : EnvState),
      sp_loop F env n epsilon delta zeta mult beta fuel st es cd i_star iter
        = Except.ok (some (ist, cd'), es') → cd' ≤ delta := by
  intro fuel
  induction fuel with
  | zero =>
    intro st es cd i_star iter ist cd' es' h
    simp only [sp_loop] at h
    split at h
    · rw [Except.ok.injEq, Prod.mk.injEq] at h
      exact absurd h.1 (by simp)
    · rename_i hnot
      rw [Except.ok.injEq, Prod.mk.injEq, Option.some.injEq, Prod.mk.injEq] at h
      obtain ⟨⟨-, hcd⟩, -⟩ := h
      rw [← hcd]
      exact not_lt.1 hnot
  | succ fuel ih =>
    intro st es cd i_star iter ist cd' es' h
    simp only [sp_loop] at h
    split at h
    · rcases hit : sp_iter F env n epsilon zeta mult beta st es
        with e | ⟨st1, es1, j⟩ <;> rw [hit] at h
      · exact Except.noConfusion h
      · dsimp only at h
        split at h
        · exact ih st1 es1 _ _ _ ist cd' es' h
        · exact ih st1 es1 _ _ _ ist cd' es' h
    · rename_i hnot
      rw [Except.ok.injEq, Prod.mk.injEq, Option.some.injEq, Prod.mk.injEq] at h
      obtain ⟨⟨-, hcd⟩, -⟩ := h
      rw [← hcd]
      exact not_lt.1 hnot

/-- C8: the Structured Procrastination main loop never reports a result while
the most recently computed `current_delta` is above `delta`: whenever
`structured_procrastination` returns normally (and, more generally, whenever
the main loop exits from any reachable loop state), the returned
`current_delta` satisfies `current_delta ≤ delta`. -/
theorem C8_gap_termination :
    (∀ (F : FloatOps) (env : Env) (s : EnvState) (n : ℕ)
        (epsilon delta zeta k0 k_bar mult : ℚ) (fuel ist : ℕ) (cd' : ℚ)
        (es' : EnvState),
      structured_procrastination F env s n epsilon delta zeta k0 k_bar mult fuel
        = Except.ok (some (ist, cd'), es') → cd' ≤ delta) ∧
    (∀ (F : FloatOps) (env : Env) (n : ℕ) (epsilon delta zeta mult beta : ℚ)
        (fuel : ℕ) (st : SPState) (es : EnvState) (cd : ℚ) (i_star iter ist : ℕ)
        (cd' : ℚ) (es' : EnvState),
      sp_loop F env n epsilon delta zeta mult beta fuel st es cd i_star iter
        = Except.ok (some (ist, cd'), es') → cd' ≤ delta) :=
  ⟨fun F env s n epsilon delta zeta k0 k_bar mult fuel ist cd' es' h =>
      sp_loop_le F env n epsilon delta zeta mult (F.rlog2 (k_bar / k0)) fuel
        (sp_init F n epsilon zeta k0 (F.rlog2 (k_bar / k0))) s 1 0 0 ist cd' es' h,
    fun F env n epsilon delta zeta mult beta fuel st es cd i_star iter ist cd' es' h =>
      sp_loop_le F env n epsilon delta zeta mult beta fuel st es cd i_star iter
        ist cd' es' h⟩

lemma getD_set_ne {α : Type} (l : List α) (i j : ℕ) (x d : α) (h : i ≠ j) :
    (l.set i x).getD j d = l.getD j d := by
  rw [List.getD_eq_getElem?_getD, List.getD_eq_getElem?_getD, List.getElem?_set_ne h]

lemma getD_set_self {α : Type} (l : List α) (i : ℕ) (x d : α) (h : i < l.length) :
    (l.set i x).getD i d = x := by
  rw [List.getD_eq_getElem?_getD, List.getElem?_set_self (by simpa using h)]
  rfl

lemma getD_mem_of_ne {α : Type} (l : List α) (n : ℕ) (d : α) (h : l.getD n d ≠ d) :
    l.getD n d ∈ l := by
  rcases he : l[n]? with _ | v
  · rw [List.getD_eq_getElem?_getD, he] at h
    simp at h
  · rw [List.getD_eq_getElem?_getD, he]
    exact List.getElem?_mem he

lemma heapMin_mem : ∀ (xs : List (ℚ × ℕ)) (m : ℚ × ℕ),
    heapMin xs m = m ∨ heapMin xs m ∈ xs := by
  intro xs
  induction xs with
  | nil => intro m; exact Or.inl rfl
  | cons x xs ih =>
    intro m
    rw [heapMin]
    rcases ih (if pairLt x m then x else m) with h | h
    · rw [h]
      split
      · exact Or.inr (List.mem_cons_self _ _)
      · exact Or.inl rfl
    · exact Or.inr (List.mem_cons_of_mem x h)

lemma removeFirst_subset : ∀ (l : List (ℚ × ℕ)) (y x : ℚ × ℕ),
    x ∈ removeFirst l y → x ∈ l := by
  intro l
  induction l with
  | nil => intro y x hx; cases hx
  | cons a l ih =>
    intro y x hx
    rw [removeFirst] at hx
    split at hx
    · exact List.mem_cons_of_mem a hx
    · rcases List.mem_cons.1 hx with rfl | hx'
      · exact List.mem_cons_self _ _
      · exact List.mem_cons_of_mem a (ih y x hx')

lemma sp_iter_k_pos (F : FloatOps) (env : Env) (n : ℕ)
    (epsilon zeta mult beta : ℚ) (st : SPState) (es : EnvState)
    (st1 : SPState) (es1 : EnvState) (i : ℕ)
    (hinv : SPInv st) (hbound : ∀ p ∈ st.heap, p.2 < st.k.length)
    (hit : sp_iter F env n epsilon zeta mult beta st es = Except.ok (st1, es1, i)) :
    1 ≤ st1.k.getD i 0 ∧ SPInv st1 ∧
    st1.heap.head? = some (st1.r_sum.getD i 0 / ((st1.k.getD i 0 : ℕ) : ℚ), i) ∧
    (∀ p ∈ st1.heap, p.2 < st1.k.length) := by
  simp only [sp_iter] at hit
  rcases hheap : st.heap with _ | ⟨hh, ht⟩ <;> rw [hheap] at hit
  · exact Except.noConfusion hit
  dsimp only at hit
  have hmem : heapMin ht hh ∈ st.heap := by
    rw [hheap]
    rcases heapMin_mem ht hh with h | h
    · rw [h]
      exact List.mem_cons_self _ _
    · exact List.mem_cons_of_mem hh h
  have hilt : (heapMin ht hh).2 < st.k.length := hbound _ hmem
  rcases hq : st.q.getD (heapMin ht hh).2 [] with _ | ⟨⟨ll, theta⟩, qrest⟩ <;>
    rw [hq] at hit
  · exact Except.noConfusion hit
  dsimp only at hit
  by_cases hr0 : (st.r.getD (heapMin ht hh).2 []).getD ll 0 = 0 <;>
    [rw [if_pos hr0] at hit; rw [if_neg hr0] at hit] <;>
    (rcases hrun : env.run es (heapMin ht hh).2 theta ll with e | ⟨out, es2⟩ <;>
      rw [hrun] at hit)
  case pos.error => exact Except.noConfusion hit
  case neg.error => exact Except.noConfusion hit
  all_goals (
    dsimp only at hit
    by_cases hto : out.1 = false <;>
      [rw [if_pos hto] at hit; rw [if_neg hto] at hit] <;>
      (rw [Except.ok.injEq, Prod.mk.injEq, Prod.mk.injEq] at hit
       obtain ⟨hst, -, hi⟩ := hit
       subst hi
       subst hst))
  all_goals
    first
    | -- the `hr0 = true` leaves: `k[i]` was just incremented
      (have hk1 : 1 ≤ (st.k.set (heapMin ht hh).2
          (st.k.getD (heapMin ht hh).2 0 + 1)).getD (heapMin ht hh).2 0 := by
        rw [getD_set_self _ _ _ _ hilt]
        exact Nat.succ_le_succ (Nat.zero_le _)
       refine ⟨hk1, ?_, rfl, ?_⟩
       · intro j hj v hv
         dsimp only at hj hv
         by_cases hji : j = (heapMin ht hh).2
         · subst hji
           rw [hj] at hk1
           exact absurd hk1 (by norm_num)
         · rw [getD_set_ne _ _ _ _ _ (fun h => hji h.symm)] at hj
           rw [getD_set_ne _ _ _ _ _ (fun h => hji h.symm),
             getD_set_ne _ _ _ _ _ (fun h => hji h.symm)] at hv
           exact hinv j hj v hv
       · intro p hp
         dsimp only at hp ⊢
         rw [List.length_set]
         rcases List.mem_cons.1 hp with rfl | hp'
         · exact hilt
         · exact hbound p (by rw [hheap]; exact removeFirst_subset _ _ _ hp'))
    | -- the `hr0 = false` leaves: `k[i]` was already positive
      (have hk0 : st.k.getD (heapMin ht hh).2 0 ≠ 0 := by
        intro h0
        exact hr0 (hinv (heapMin ht hh).2 h0 _ (getD_mem_of_ne _ _ _ hr0))
       have hk1 : 1 ≤ st.k.getD (heapMin ht hh).2 0 := Nat.one_le_iff_ne_zero.2 hk0
       refine ⟨hk1, ?_, rfl, ?_⟩
       · intro j hj v hv
         dsimp only at hj hv
         by_cases hji : j = (heapMin ht hh).2
         · subst hji
           rw [hj] at hk1
           exact absurd hk1 (by norm_num)
         · rw [getD_set_ne _ _ _ _ _ (fun h => hji h.symm),
             getD_set_ne _ _ _ _ _ (fun h => hji h.symm)] at hv
           exact hinv j hj v hv
       · intro p hp
         dsimp only at hp ⊢
         rcases List.mem_cons.1 hp with rfl | hp'
         · exact hilt
         · exact hbound p (by rw [hheap]; exact removeFirst_subset _ _ _ hp'))

lemma getD_replicate {α : Type} (m : ℕ) (a d : α) (i : ℕ) :
    (List.replicate m a).getD i d = if i < m then a else d := by
  rw [List.getD_eq_getElem?_getD, List.getElem?_replicate]
  split <;> rfl

lemma sp_init_inv (F : FloatOps) (n : ℕ) (epsilon zeta k0 beta : ℚ) :
    SPInv (sp_init F n epsilon zeta k0 beta) ∧
    (∀ p ∈ (sp_init F n epsilon zeta k0 beta).heap,
      p.2 < (sp_init F n epsilon zeta k0 beta).k.length) := by
  constructor
  · intro i _ v hv
    dsimp only [sp_init] at hv
    rw [getD_replicate] at hv
    split at hv
    · exact List.eq_of_mem_replicate hv
    · cases hv
  · intro p hp
    dsimp only [sp_init] at hp ⊢
    rw [List.length_replicate]
    obtain ⟨j, hj, hpj⟩ := List.mem_map.1 hp
    rw [← hpj]
    exact List.mem_range.1 hj

/-- C10: in `structured_procrastination`, the generation counter of a popped
configuration is at least `1` by the time it is pushed back into the heap:
the first slot popped for a configuration always has charged cost `0`, which
increments `k[i]`, and a configuration with `k[i] = 0` can only have all-zero
charges (the invariant `SPInv`, true initially and preserved by every
iteration).  Hence the re-insertion key `r_sum[i] / k[i]` — the head of the
new heap — never divides by zero. -/
theorem C10_generation_counter_positive :
    (∀ (F : FloatOps) (n : ℕ) (epsilon zeta k0 beta : ℚ),
      SPInv (sp_init F n epsilon zeta k0 beta) ∧
      ∀ p ∈ (sp_init F n epsilon zeta k0 beta).heap,
        p.2 < (sp_init F n epsilon zeta k0 beta).k.length) ∧
    (∀ (F : FloatOps) (env : Env) (n : ℕ) (epsilon zeta mult beta : ℚ)
        (st : SPState) (es : EnvState) (st1 : SPState) (es1 : EnvState) (i : ℕ),
      SPInv st → (∀ p ∈ st.heap, p.2 < st.k.length) →
      sp_iter F env n epsilon zeta mult beta st es = Except.ok (st1, es1, i) →
      1 ≤ st1.k.getD i 0 ∧ SPInv st1 ∧
      st1.heap.head? = some (st1.r_sum.getD i 0 / ((st1.k.getD i 0 : ℕ) : ℚ), i) ∧
      ∀ p ∈ st1.heap, p.2 < st1.k.length) :=
  ⟨fun F n epsilon zeta k0 beta => sp_init_inv F n epsilon zeta k0 beta,
    fun F env n epsilon zeta mult beta st es st1 es1 i hinv hbound hit =>
      sp_iter_k_pos F env n epsilon zeta mult beta st es st1 es1 i hinv hbound hit⟩

end LB
